import Mathlib

/-
Verification development for the measurement engine in src/src/benchmark.cc
(an early fork of the google benchmark library).

The C++ code is shallowly embedded:
* machine integers (int32_t, int64_t) are modelled as ℤ; the one place where
  the 32-bit range matters (the overflow guard in Benchmark::AddRange) keeps
  the source's explicit bound INT32_MAX;
* doubles (wall-clock seconds, CPU seconds, pause accumulators) are modelled
  as ℚ; the implicit double → int64_t conversion in the KeepRunning fast path
  is modelled by truncation toward zero;
* clock reads (walltime::Now, MyCPUUsage + ChildrenCPUUsage, FastClock's
  cached approximate time) are inputs: each KeepRunning call receives an Env
  holding the values those reads return during the call;
* fatal checks (CHECK, CHECK_EQ, CHECK_LT) and out-of-bounds vector accesses
  make a function return none;
* the single-worker execution path is modelled (in the source only the
  threads == 1 path actually runs; the worker-spawning path is stubbed), so
  State and its SharedState are flattened into one WorkerState record.
-/

/-! ### Data model: State, SharedState and flags (src/src/benchmark.cc) -/

/-- The five phases of a worker (STATE_INITIAL .. STATE_STOPPED). -/
inductive Phase where
  | initial
  | starting
  | running
  | stopping
  | stopped
deriving DecidableEq, Repr

/-- One measurement interval's output (internal::BenchmarkRunData), restricted
to the fields that State::FinishInterval fills in; benchmark_name, rates and
heap usage are filled in later by Benchmark::RunInstance. -/
structure RunData where
  thread_index : ℤ
  iterations : ℤ
  real_accumulated_time : ℚ
  cpu_accumulated_time : ℚ
deriving DecidableEq, Repr

/-- Per-worker stats set by the user routine
(internal::Benchmark::ThreadStats, kept in thread-local storage). -/
structure ThreadStats where
  bytes_processed : ℤ
  items_processed : ℤ
deriving DecidableEq, Repr

/-- A worker's State together with the fields of its SharedState
(single-worker model: the shared run list, barrier counters and label are
flattened into the worker's record). -/
structure WorkerState where
  thread_index : ℤ
  phase : Phase
  iterations : ℤ
  start_cpu : ℚ
  start_time : ℚ
  stop_time_micros : ℚ
  start_pause : ℚ
  pause_time : ℚ
  total_iterations : ℤ
  interval_micros : ℤ
  is_continuation : Bool
  -- SharedState fields
  runs : List RunData
  starting : ℤ
  stopping : ℤ
  threads : ℤ
  label : String
deriving DecidableEq, Repr

/-- The command-line flags the measurement loop reads. -/
structure Flags where
  benchmark_min_iters : ℤ
  benchmark_max_iters : ℤ
  benchmark_repetitions : ℤ
deriving DecidableEq, Repr

/-- The values returned by one round of exact clock reads:
FastClock::NowMicros, walltime::Now, and MyCPUUsage + ChildrenCPUUsage. -/
structure Clock where
  nowMicros : ℤ
  wall : ℚ
  cpu : ℚ
deriving DecidableEq, Repr

/-- The clock values observed during one KeepRunning call: the cached
approximate time the fast path compares against (FastClock::approx_time_,
kept fresh by the background ticker), the reads made when closing an
interval (c1), and the reads made by a nested NewInterval call (c2). -/
structure Env where
  approx : ℤ
  c1 : Clock
  c2 : Clock
deriving DecidableEq, Repr

/-- Truncation of a rational toward zero: models the C++ implicit
double → int64_t conversion in the KeepRunning fast path (the values arising
in the theorems below are nonnegative, where every integer-division
convention agrees). -/
def truncQ (q : ℚ) : ℤ :=
  q.num.tdiv (q.den : ℤ)

/-! ### The measurement loop (State::KeepRunning and its helpers) -/

/-- State::NewInterval: set the interval deadline; on a non-continuation
interval also reset the iteration and pause counters and sample the start
CPU and wall times. -/
def newInterval (c : Clock) (s : WorkerState) : WorkerState :=
  let s1 := {s with stop_time_micros := ((c.nowMicros + s.interval_micros : ℤ) : ℚ)}
  if s1.is_continuation then s1
  else {s1 with iterations := 0, pause_time := 0, start_cpu := c.cpu, start_time := c.wall}

/-- State::RunAnotherInterval, verbatim from the source: the total-iteration
budget checks followed by the repetition-count check against runs.size(). -/
def runAnotherInterval (f : Flags) (total_iterations runsSize : ℤ) : Bool :=
  if total_iterations < f.benchmark_min_iters then true
  else if total_iterations > f.benchmark_max_iters then false
  else if runsSize ≥ f.benchmark_repetitions then false
  else true

/-- State::StartRunning: transition INITIAL → STARTING → RUNNING under the
mutex, bump the starting counter (CHECK_LT(starting, threads) modelled as
none on failure), and open the first interval.  The last starter's
FastClock::InitType only changes which source feeds the cached approximate
time, which is exogenous here (Env.approx), so it is not state. -/
def startRunning (e : Env) (s : WorkerState) : Option (Bool × WorkerState) :=
  if s.starting < s.threads then
    some (true, newInterval e.c2
      {s with phase := Phase.running, is_continuation := false, starting := s.starting + 1})
  else none

/-- State::FinishInterval.  The interval-too-short branch doubles the
interval, clears the continuation flag and restarts.  Otherwise the interval
is closed: the CHECK_LT assertions on pause_time are modelled as none on
failure, the RunData is pushed (or, on a continuation, overwrites
runs.back(); overwriting an empty vector is out of bounds, hence none), and
the stopping logic of the source's tail (keep_going false: bump stopping,
STOPPING keeps running untimed, last stopper goes STOPPED; keep_going true:
continuation NewInterval) is transcribed branch for branch. -/
def finishInterval (f : Flags) (e : Env) (s : WorkerState) : Option (Bool × WorkerState) :=
  if s.iterations < f.benchmark_min_iters.tdiv f.benchmark_repetitions ∧
      s.interval_micros < 5000000 then
    some (true, newInterval e.c2
      {s with interval_micros := s.interval_micros * 2, is_continuation := false})
  else
    let accumulated_time : ℚ := e.c1.wall - s.start_time
    let total_overhead : ℚ := 0
    if s.pause_time < accumulated_time ∧ s.pause_time + total_overhead < accumulated_time then
      let d : RunData :=
        { thread_index := s.thread_index
          iterations := s.iterations
          real_accumulated_time := accumulated_time - (s.pause_time + total_overhead)
          cpu_accumulated_time := e.c1.cpu - s.start_cpu }
      if s.is_continuation ∧ s.runs = [] then none
      else
        let runs2 := if s.is_continuation then s.runs.dropLast ++ [d] else s.runs ++ [d]
        let total2 := s.total_iterations + s.iterations
        let keep_going := runAnotherInterval f total2 (runs2.length : ℤ)
        let s2 := {s with total_iterations := total2, runs := runs2}
        if keep_going then
          some (true, newInterval e.c2 {s2 with is_continuation := true})
        else if s2.stopping + 1 < s2.threads then
          some (true, {s2 with stopping := s2.stopping + 1, phase := Phase.stopping})
        else
          some (false, {s2 with stopping := s2.stopping + 1, phase := Phase.stopped})
    else none

/-- State::MaybeStop: keep running (untimed) while other workers are still
stopping; the last observer flips to STOPPED and returns false. -/
def maybeStop (s : WorkerState) : Option (Bool × WorkerState) :=
  if s.stopping < s.threads then
    if s.phase = Phase.stopping then some (true, s) else none
  else some (false, {s with phase := Phase.stopped})

/-- State::KeepRunning: the fast path compares the cached clock against
stop_time_micros_ + pause_time_ (a double, implicitly converted to int64_t),
then dispatches on the phase.  CHECK(false) in STARTING and STOPPED is
modelled as none. -/
def keepRunning (f : Flags) (e : Env) (s : WorkerState) : Option (Bool × WorkerState) :=
  if e.approx < truncQ (s.stop_time_micros + s.pause_time) then
    some (true, {s with iterations := s.iterations + 1})
  else
    match s.phase with
    | Phase.initial => startRunning e s
    | Phase.starting => none
    | Phase.running => finishInterval f e s
    | Phase.stopping => maybeStop s
    | Phase.stopped => none

/-- State::PauseTiming: record the start of a pause from the wall clock. -/
def pauseTiming (wallNow : ℚ) (s : WorkerState) : WorkerState :=
  {s with start_pause := wallNow}

/-- State::ResumeTiming: add the elapsed pause to the pause accumulator. -/
def resumeTiming (wallNow : ℚ) (s : WorkerState) : WorkerState :=
  {s with pause_time := s.pause_time + (wallNow - s.start_pause)}

/-- State::SetBytesProcessed: legal only in STOPPED (CHECK_EQ modelled as
none), stores into the worker's thread-local stats. -/
def setBytesProcessed (s : WorkerState) (stats : ThreadStats) (bytes : ℤ) : Option ThreadStats :=
  if s.phase = Phase.stopped then some {stats with bytes_processed := bytes} else none

/-- State::SetItemsProcessed: legal only in STOPPED. -/
def setItemsProcessed (s : WorkerState) (stats : ThreadStats) (items : ℤ) : Option ThreadStats :=
  if s.phase = Phase.stopped then some {stats with items_processed := items} else none

/-- State::SetLabel: legal only in STOPPED, stores into the shared state. -/
def setLabel (s : WorkerState) (label : String) : Option WorkerState :=
  if s.phase = Phase.stopped then some {s with label := label} else none

/-! ### Human-readable (SI) number formatting (ToExponentAndMantissa etc.) -/

/-- Model of the default C++ ostream rendering (`stream << double`).  It is
faithful for integral values of magnitude below 10^6, the only values the
theorems below evaluate it on (C++ prints those without a decimal point or
exponent).  Non-integral values are rendered as a decimal with up to six
fractional digits, without reproducing the six-significant-digit and
scientific-notation rules of the C++ stream. -/
def showDouble (q : ℚ) : String :=
  if q.den = 1 then toString q.num
  else
    let sign := if q < 0 then "-" else ""
    let a : ℚ := |q|
    let ip : ℤ := a.num / (a.den : ℤ)
    let fr6 : ℤ := ((a - (ip : ℚ)) * 1000000).num / (((a - (ip : ℚ)) * 1000000).den : ℤ)
    sign ++ toString ip ++ "." ++ toString fr6

/-- kUnitsSize: the number of SI unit letters ("kMGTPEZY"); the arraysize
macro lives in a header that is not part of src/, modelled as the unit
count. -/
def kUnitsSize : ℕ := 8

/-- The positive-powers loop of ToExponentAndMantissa: repeatedly divide by
one_k; the first scaled value at or below the threshold is the mantissa, and
the exponent is the number of divisions.  none models falling off the end of
the loop. -/
def posLoop (big one_k : ℚ) : ℕ → ℕ → ℚ → Option (ℚ × ℤ)
  | 0, _, _ => none
  | fuel + 1, i, scaled =>
    let scaled2 := scaled / one_k
    if scaled2 ≤ big then some (scaled2, (i : ℤ) + 1)
    else posLoop big one_k fuel (i + 1) scaled2

/-- The negative-powers loop of ToExponentAndMantissa: repeatedly multiply
by one_k; the first scaled value at or above the threshold is the mantissa,
with exponent -(i+1). -/
def negLoop (small one_k : ℚ) : ℕ → ℕ → ℚ → Option (ℚ × ℤ)
  | 0, _, _ => none
  | fuel + 1, i, scaled =>
    let scaled2 := scaled * one_k
    if small ≤ scaled2 then some (scaled2, -(i : ℤ) - 1)
    else negLoop small one_k fuel (i + 1) scaled2

/-- ToExponentAndMantissa: split a value into a rendered mantissa and a
power-of-one_k exponent.  The threshold is adjusted so it never excludes
what cannot be rendered in precision digits; vals above
adjusted·one_k walk the positive powers, vals below adjusted walk the
negative powers, anything else is rendered as is with exponent 0. -/
def toExponentAndMantissa (val thresh : ℚ) (precision : ℕ) (one_k : ℚ) : String × ℤ :=
  let sign : String := if val < 0 then "-" else ""
  let v : ℚ := if val < 0 then -val else val
  let adjusted_threshold := max thresh (1 / 10 ^ precision)
  let big_threshold := adjusted_threshold * one_k
  let small_threshold := adjusted_threshold
  if big_threshold < v then
    match posLoop big_threshold one_k kUnitsSize 0 v with
    | some (scaled, e) => (sign ++ showDouble scaled, e)
    | none => (sign ++ showDouble v, 0)
  else if v < small_threshold then
    match negLoop small_threshold one_k kUnitsSize 0 v with
    | some (scaled, e) => (sign ++ showDouble scaled, e)
    | none => (sign ++ showDouble v, 0)
  else (sign ++ showDouble v, 0)

/-- kBigSIUnits = "kMGTPEZY". -/
def bigSIUnits : List String := ["k", "M", "G", "T", "P", "E", "Z", "Y"]

/-- kBigIECUnits = "KMGTPEZY". -/
def bigIECUnits : List String := ["K", "M", "G", "T", "P", "E", "Z", "Y"]

/-- kSmallSIUnits = "munpfazy". -/
def smallSIUnits : List String := ["m", "u", "n", "p", "f", "a", "z", "y"]

/-- ExponentToPrefix from the source (renamed: the unit letter for an
exponent, empty for exponent 0 or out-of-range index, with an "i" suffix in
IEC mode). -/
def unitForExponent (exponent : ℤ) (iec : Bool) : String :=
  if exponent = 0 then ""
  else
    let index : ℤ := if 0 < exponent then exponent - 1 else -exponent - 1
    if (kUnitsSize : ℤ) ≤ index then ""
    else
      let arr := if 0 < exponent then (if iec then bigIECUnits else bigSIUnits) else smallSIUnits
      if iec then (arr.getD index.toNat "") ++ "i" else arr.getD index.toNat ""

/-- ToBinaryStringFullySpecified: mantissa (base 1024) followed by the SI
unit letter. -/
def toBinaryStringFullySpecified (value threshold : ℚ) (precision : ℕ) : String :=
  let me := toExponentAndMantissa value threshold precision 1024
  me.1 ++ unitForExponent me.2 false

/-- HumanReadableNumber: threshold 1.1 (figures up to 1.1·base keep the next
unit down), precision 1. -/
def humanReadableNumber (n : ℚ) : String :=
  toBinaryStringFullySpecified n (11 / 10) 1

/-- The SI rendering used for axis values in instance names
(AppendHumanReadable rounds down to the nearest SI prefix: threshold 1.0,
precision 0). -/
def siRender (n : ℤ) : String :=
  toBinaryStringFullySpecified (n : ℚ) 1 0

/-- AppendHumanReadable: append "/" and the SI rendering of n. -/
def appendHumanReadable (n : ℤ) (str : String) : String :=
  str ++ "/" ++ siRender n

/-! ### Registry, ranges and instance expansion (internal::Benchmark) -/

/-- INT32_MAX: std::numeric_limits of int32_t, max(), in AddRange's overflow
guard. -/
def int32Max : ℤ := 2147483647

/-- The no-range sentinel (Benchmark::kNoRange, declared in the header that
is not part of src/; its concrete value is irrelevant to the claims). -/
def kNoRange : ℤ := -1

/-- The thread-per-CPU marker (Benchmark::kNumCpuMarker, declared in the
header that is not part of src/), resolved to the CPU count at expansion. -/
def kNumCpuMarker : ℤ := -1

/-- The loop of Benchmark::AddRange: i runs over 1, mult, mult², … while
i < INT32_MAX / mult (the overflow guard), breaking once i ≥ hi and pushing
every i with lo < i. -/
def addRangeLoop (lo hi mult : ℤ) : ℕ → ℤ → List ℤ
  | 0, _ => []
  | fuel + 1, i =>
    if i < int32Max.tdiv mult then
      if hi ≤ i then []
      else (if lo < i then [i] else []) ++ addRangeLoop lo hi mult fuel (i * mult)
    else []

/-- Benchmark::AddRange: CHECK_GE(lo, 0) and CHECK_GE(hi, lo) modelled as
none; otherwise lo, the in-range powers of mult, then hi when distinct.
Fuel 64 over-approximates the loop's trip count: with mult ≥ 2 the guard
i < INT32_MAX / mult fails after at most 31 multiplications. -/
def addRange (lo hi mult : ℤ) : Option (List ℤ) :=
  if 0 ≤ lo ∧ lo ≤ hi then
    some (lo :: (addRangeLoop lo hi mult 64 1 ++ (if hi ≠ lo then [hi] else [])))
  else none

/-- A registered benchmark family: name, parameter axes and thread counts
(the user routine itself plays no role in the claims below). -/
structure Family where
  name : String
  rangeX : List ℤ
  rangeY : List ℤ
  thread_counts : List ℤ
deriving DecidableEq, Repr

/-- Benchmark::Instance: a concrete (name, axis values, thread count)
configuration (the bm back-pointer is dropped). -/
structure Instance where
  name : String
  rangeXset : Bool
  rangeX : ℤ
  rangeYset : Bool
  rangeY : ℤ
  threads : ℤ
deriving DecidableEq, Repr

/-- Benchmark::CreateBenchmarkInstances: one instance per thread count (or
the single default count 1), with the name decorated by the axis values and,
when the family set any thread counts, by "/threads:N".  In the source the
axis values are passed as indices into the family's vectors; they are passed
here as the selected values themselves. -/
def createBenchmarkInstances (fam : Family) (numCpus : ℤ) (x y : Option ℤ) : List Instance :=
  let one_thread : List ℤ := [1]
  let is_multithreaded := fam.thread_counts ≠ []
  let tcs := if is_multithreaded then fam.thread_counts else one_thread
  tcs.map fun t =>
    let num_threads := if t = kNumCpuMarker then numCpus else t
    let name1 := fam.name
    let name2 := match x with
      | some v => appendHumanReadable v name1
      | none => name1
    let name3 := match y with
      | some v => appendHumanReadable v name2
      | none => name2
    let name4 := if is_multithreaded then name3 ++ "/threads:" ++ toString num_threads else name3
    { name := name4
      rangeXset := x.isSome
      rangeX := x.getD kNoRange
      rangeYset := y.isSome
      rangeY := y.getD kNoRange
      threads := num_threads }

/-- The per-family expansion step of Benchmark::FindBenchmarks: no axes, the
first axis alone, or the cross product of both axes. -/
def expandFamily (fam : Family) (numCpus : ℤ) : List Instance :=
  if fam.rangeX = [] ∧ fam.rangeY = [] then
    createBenchmarkInstances fam numCpus none none
  else if fam.rangeY = [] then
    fam.rangeX.flatMap fun x => createBenchmarkInstances fam numCpus (some x) none
  else
    fam.rangeX.flatMap fun x =>
      fam.rangeY.flatMap fun y => createBenchmarkInstances fam numCpus (some x) (some y)

/-- Benchmark::FindBenchmarks: walk the registry (nulled slots are skipped),
keep the families whose name the compiled filter regex matches, and expand
each.  The regex is modelled by the predicate matcher. -/
def findBenchmarks (matcher : String → Bool) (fams : List (Option Family)) (numCpus : ℤ) :
    List Instance :=
  fams.foldl
    (fun acc fam? =>
      match fam? with
      | none => acc
      | some fam => if matcher fam.name then acc ++ expandFamily fam numCpus else acc)
    []

/-! ### Entry points (RunSpecifiedBenchmarks, RunMatchingBenchmarks,
FindMatchingBenchmarkNames) -/

/-- The filter preprocessing in RunSpecifiedBenchmarks: an empty flag or the
literal "all" becomes ".". -/
def runSpecifiedBenchmarksSpec (benchmark_filter : String) : String :=
  if benchmark_filter = "" ∨ benchmark_filter = "all" then "." else benchmark_filter

/-- internal::RunMatchingBenchmarks, reduced to which instances get run: an
empty spec returns without running anything, otherwise every instance found
for the spec is run.  The matcher models the regex compiled from spec. -/
def runMatchingBenchmarks (spec : String) (matcher : String → Bool)
    (fams : List (Option Family)) (numCpus : ℤ) : List Instance :=
  if spec = "" then [] else findBenchmarks matcher fams numCpus

/-- RunSpecifiedBenchmarks: preprocess the filter flag, then run the
matching benchmarks.  matcherOf spec models the regex compiled from spec. -/
def runSpecifiedBenchmarks (benchmark_filter : String)
    (matcherOf : String → String → Bool) (fams : List (Option Family)) (numCpus : ℤ) :
    List Instance :=
  let spec := runSpecifiedBenchmarksSpec benchmark_filter
  runMatchingBenchmarks spec (matcherOf spec) fams numCpus

/-- The std::transform in FindMatchingBenchmarkNames writes through an
output iterator starting at benchmark_names->begin(): element i of xs goes
to position i of dst without growing it, and a write past the end is out of
bounds (none). -/
def writeSeq : List String → ℕ → List String → Option (List String)
  | dst, _, [] => some dst
  | dst, i, x :: rest =>
    if i < dst.length then writeSeq (dst.set i x) (i + 1) rest else none

/-- internal::FindMatchingBenchmarkNames: an empty spec leaves the vector
untouched; otherwise the names of the matching instances are written through
benchmark_names->begin(). -/
def findMatchingBenchmarkNames (spec : String) (matcher : String → Bool)
    (fams : List (Option Family)) (numCpus : ℤ) (benchmark_names : List String) :
    Option (List String) :=
  if spec = "" then some benchmark_names
  else writeSeq benchmark_names 0 ((findBenchmarks matcher fams numCpus).map (·.name))

/-! ### Spec-side reference definitions and execution traces -/

/-- The run-another-interval decision exactly as the specification words it
(reference definition for C1, written from the spec, to be compared with
runAnotherInterval from the source): yes if total iterations < min_iters;
otherwise no if total iterations > max_iters; otherwise no if the number of
completed (non-continuation) runs ≥ repetitions; otherwise yes. -/
def specRunDecision (f : Flags) (total_iterations completedRuns : ℤ) : Bool :=
  if total_iterations < f.benchmark_min_iters then true
  else if f.benchmark_max_iters < total_iterations then false
  else if f.benchmark_repetitions ≤ completedRuns then false
  else true

/-- Run a sequence of KeepRunning calls, one per Env, collecting the
returned booleans; none as soon as any call hits a fatal check. -/
def runSteps (f : Flags) : List Env → WorkerState → Option (List Bool × WorkerState)
  | [], s => some ([], s)
  | e :: es, s =>
    match keepRunning f e s with
    | none => none
    | some (b, s') =>
      match runSteps f es s' with
      | none => none
      | some (bs, s'') => some (b :: bs, s'')

/-- Apply a list of balanced pause/resume episodes: for each pair (p, r) the
user routine calls pause_timing when the wall clock reads p and
resume_timing when it reads r. -/
def applyPauses (s : WorkerState) (l : List (ℚ × ℚ)) : WorkerState :=
  l.foldl (fun t pr => resumeTiming pr.2 (pauseTiming pr.1 t)) s

/-- The total duration of a list of pause episodes. -/
def sumPauses : List (ℚ × ℚ) → ℚ
  | [] => 0
  | pr :: rest => (pr.2 - pr.1) + sumPauses rest

/-- The wall-clock reading at the last pause_timing call (the final
start_pause), defaulting to d when there is no episode. -/
def lastPauseStart : List (ℚ × ℚ) → ℚ → ℚ
  | [], d => d
  | pr :: rest, _ => lastPauseStart rest pr.1

/-- The pause episodes are ordered and contained in the window (t0, tEnd):
each starts no earlier than the previous one ended, each resume follows its
pause, and the interval closes strictly after the last resume. -/
def chainedIn (t0 tEnd : ℚ) : List (ℚ × ℚ) → Prop
  | [] => t0 < tEnd
  | pr :: rest => t0 ≤ pr.1 ∧ pr.1 ≤ pr.2 ∧ chainedIn pr.2 tEnd rest

/-! ### Concrete inputs used by the witnesses and counterexamples -/

/-- Default flags: min_iters 100, max_iters 10^9, repetitions 1. -/
def fDefault : Flags := ⟨100, 1000000000, 1⟩

/-- A single worker mid-RUNNING with 200 iterations in the current interval
and an expired deadline. -/
def sC1 : WorkerState :=
  { thread_index := 0, phase := Phase.running, iterations := 200, start_cpu := 0,
    start_time := 0, stop_time_micros := 0, start_pause := 0, pause_time := 0,
    total_iterations := 0, interval_micros := 1000000, is_continuation := false,
    runs := [], starting := 1, stopping := 0, threads := 1, label := "" }

/-- Clock values for closing sC1's interval one wall-second in. -/
def eC1 : Env := ⟨10, ⟨1000000, 1, 0⟩, ⟨1000000, 1, 0⟩⟩

/-- A worker that hits its deadline with only 3 iterations and a 1000 µs
interval: the interval-too-short branch of FinishInterval fires. -/
def sC2 : WorkerState :=
  { sC1 with iterations := 3, interval_micros := 1000 }

/-- Clock values for sC2's too-short deadline hit. -/
def eC2 : Env := ⟨5, ⟨2000, 7, 9⟩, ⟨100, 3, 4⟩⟩

/-- The state the source actually produces from sC2/eC2: interval doubled to
2000 µs, continuation flag cleared, iteration and pause counters reset, start
times resampled from eC2's NewInterval reads, and no RunData recorded. -/
def sC2' : WorkerState :=
  { sC2 with
    interval_micros := 2000
    is_continuation := false
    stop_time_micros := 2100
    iterations := 0
    pause_time := 0
    start_cpu := 4
    start_time := 3 }

/-- A worker about to open a fresh interval through the doubling branch: 3
iterations against min_iters/repetitions = 100, interval 4·10^6 µs. -/
def sC3 : WorkerState :=
  { sC1 with iterations := 3, interval_micros := 4000000 }

/-- Opener call: deadline reached, doubling branch restarts with an
8·10^6 µs interval (deadline 8000000). -/
def eC30 : Env := ⟨5, ⟨0, 0, 0⟩, ⟨0, 0, 0⟩⟩

/-- One fast-path call inside the new interval. -/
def eC31 : Env := ⟨5, ⟨0, 0, 0⟩, ⟨0, 0, 0⟩⟩

/-- Closing call: the cached clock passed the deadline, one wall-second
elapsed. -/
def eC32 : Env := ⟨9000000, ⟨9000000, 1, 0⟩, ⟨9000000, 1, 0⟩⟩

/-- The state right after eC30's doubling restart: a fresh 8·10^6 µs
interval with deadline 8000000 and counters reset. -/
def sC3mid : WorkerState :=
  { sC3 with iterations := 0, interval_micros := 8000000, stop_time_micros := 8000000 }

/-- The state after the three calls eC30, eC31, eC32 from sC3: one RunData
recording a single iteration, and a continuation interval opened. -/
def sC3f : WorkerState :=
  { sC3 with
    iterations := 1
    interval_micros := 8000000
    stop_time_micros := 17000000
    is_continuation := true
    total_iterations := 1
    runs := [⟨0, 1, 1, 0⟩] }

/-- Two pause/resume episodes, [1,2] and [4,6], total pause 3. -/
def pausesC4 : List (ℚ × ℚ) := [(1, 2), (4, 6)]

/-- Clock values closing the paused interval at wall time 10. -/
def eC4 : Env := ⟨10, ⟨10000000, 10, 0⟩, ⟨10000000, 10, 0⟩⟩

/-- A family registered with Threads(1): thread count list [1]. -/
def famThreads1 : Family := ⟨"BM", [], [], [1]⟩

/-- A plain family: no axes, no thread counts. -/
def famPlain : Family := ⟨"BM", [], [], []⟩

/-- A family registered with Threads(4). -/
def famT4 : Family := ⟨"BM", [], [], [4]⟩

/-! ### Helper lemmas about the measurement loop -/

lemma truncQ_intCast (n : ℤ) : truncQ ((n : ℤ) : ℚ) = n := by simp [truncQ]

lemma truncQ_zero : truncQ 0 = 0 := by simp [truncQ]

lemma truncQ_ofNat (n : ℕ) : truncQ (OfNat.ofNat n : ℚ) = OfNat.ofNat n := by
  simp [truncQ]

lemma newInterval_runs (c : Clock) (s : WorkerState) : (newInterval c s).runs = s.runs := by
  simp only [newInterval]
  split <;> rfl

lemma newInterval_phase (c : Clock) (s : WorkerState) : (newInterval c s).phase = s.phase := by
  simp only [newInterval]
  split <;> rfl

/-- The source's RunAnotherInterval computes exactly the decision rule the
spec states, once runs.size() is read as the completed-run count. -/
lemma runAnotherInterval_eq_spec (f : Flags) (total completed : ℤ) :
    runAnotherInterval f total completed = specRunDecision f total completed := rfl

/-- A KeepRunning call whose fast path fails while the worker is RUNNING is
exactly FinishInterval. -/
lemma keepRunning_running (f : Flags) (e : Env) (s : WorkerState)
    (hph : s.phase = Phase.running)
    (hslow : truncQ (s.stop_time_micros + s.pause_time) ≤ e.approx) :
    keepRunning f e s = finishInterval f e s := by
  unfold keepRunning
  rw [if_neg (not_lt.mpr hslow), hph]

/-- Closing an interval (the non-doubling branch of FinishInterval, with the
pause-time assertion satisfied): the RunData built from the worker's counters
is pushed (or overwrites the last entry on a continuation), the totals are
updated, and the worker stays RUNNING exactly when RunAnotherInterval says
yes. -/
lemma finishInterval_close (f : Flags) (e : Env) (s : WorkerState)
    (hph : s.phase = Phase.running)
    (hrec : ¬(s.iterations < f.benchmark_min_iters.tdiv f.benchmark_repetitions ∧
      s.interval_micros < 5000000))
    (hchk : s.pause_time < e.c1.wall - s.start_time)
    (hcne : s.is_continuation = true → s.runs ≠ []) :
    ∃ b s', finishInterval f e s = some (b, s') ∧
      s'.runs = (if s.is_continuation then s.runs.dropLast else s.runs) ++
        [⟨s.thread_index, s.iterations,
          (e.c1.wall - s.start_time) - (s.pause_time + 0), e.c1.cpu - s.start_cpu⟩] ∧
      s'.total_iterations = s.total_iterations + s.iterations ∧
      ((s'.phase = Phase.running) ↔
        runAnotherInterval f (s.total_iterations + s.iterations) ((s'.runs.length : ℤ)) = true) := by
  have hch2 : s.pause_time < e.c1.wall - s.start_time ∧
      s.pause_time + 0 < e.c1.wall - s.start_time := ⟨hchk, by simpa using hchk⟩
  have hguard : ¬(s.is_continuation = true ∧ s.runs = []) := by
    rintro ⟨h1, h2⟩
    exact hcne h1 h2
  simp only [finishInterval]
  rw [if_neg hrec, if_pos hch2, if_neg hguard]
  set d : RunData :=
    ⟨s.thread_index, s.iterations,
      (e.c1.wall - s.start_time) - (s.pause_time + 0), e.c1.cpu - s.start_cpu⟩ with hd
  set runs2 := if s.is_continuation then s.runs.dropLast ++ [d] else s.runs ++ [d] with hruns2
  have hruns2' : runs2 = (if s.is_continuation then s.runs.dropLast else s.runs) ++ [d] := by
    rw [hruns2]
    split <;> rfl
  by_cases hkg : runAnotherInterval f (s.total_iterations + s.iterations) ((runs2.length : ℤ)) = true
  · rw [if_pos hkg]
    refine ⟨true, _, rfl, ?_, ?_, ?_⟩
    · rw [newInterval_runs]
      exact hruns2'
    · simp only [newInterval]
      split <;> rfl
    · rw [newInterval_phase, newInterval_runs]
      show s.phase = Phase.running ↔
        runAnotherInterval f (s.total_iterations + s.iterations) ((runs2.length : ℤ)) = true
      simp [hph, hkg]
  · rw [if_neg hkg]
    have hkg' : runAnotherInterval f (s.total_iterations + s.iterations) ((runs2.length : ℤ)) = false := by
      simpa using hkg
    by_cases hstop : s.stopping + 1 < s.threads
    · rw [if_pos hstop]
      refine ⟨true, _, rfl, hruns2', rfl, ?_⟩
      simp [hkg']
    · rw [if_neg hstop]
      refine ⟨false, _, rfl, hruns2', rfl, ?_⟩
      simp [hkg']

/-- A run of fast-path KeepRunning calls returns true every time and adds
exactly one iteration per call, touching nothing else. -/
lemma runSteps_fast (f : Flags) (es : List Env) (s : WorkerState)
    (h : ∀ e ∈ es, e.approx < truncQ (s.stop_time_micros + s.pause_time)) :
    runSteps f es s =
      some (List.replicate es.length true,
        {s with iterations := s.iterations + (es.length : ℤ)}) := by
  induction es generalizing s with
  | nil => simp [runSteps]
  | cons e es ih =>
    have he : e.approx < truncQ (s.stop_time_micros + s.pause_time) := h e (by simp)
    have hrest : ∀ e' ∈ es,
        e'.approx < truncQ (({s with iterations := s.iterations + 1} : WorkerState).stop_time_micros +
          ({s with iterations := s.iterations + 1} : WorkerState).pause_time) := by
      intro e' he'
      simpa using h e' (List.mem_cons_of_mem _ he')
    simp only [runSteps, keepRunning, if_pos he, ih _ hrest, List.length_cons,
      List.replicate_succ]
    have harith : s.iterations + 1 + (es.length : ℤ) = s.iterations + ((es.length + 1 : ℕ) : ℤ) := by
      push_cast
      ring
    rw [harith]

/-- runSteps distributes over list append. -/
lemma runSteps_append (f : Flags) (l1 l2 : List Env) (s : WorkerState) :
    runSteps f (l1 ++ l2) s =
      (runSteps f l1 s).bind fun p =>
        (runSteps f l2 p.2).map fun q => (p.1 ++ q.1, q.2) := by
  induction l1 generalizing s with
  | nil => simp [runSteps]
  | cons e l1 ih =>
    simp only [List.cons_append, runSteps]
    cases hk : keepRunning f e s with
    | none => rfl
    | some p =>
      obtain ⟨b, s'⟩ := p
      dsimp only
      rw [show runSteps f (l1.append l2) s' = runSteps f (l1 ++ l2) s' from rfl, ih]
      cases h1 : runSteps f l1 s' with
      | none => rfl
      | some q =>
        obtain ⟨bs, s''⟩ := q
        cases h2 : runSteps f l2 s'' <;> simp [h2]

/-- applyPauses only touches the pause accumulator and the last pause
start. -/
lemma applyPauses_eq (l : List (ℚ × ℚ)) : ∀ s : WorkerState,
    applyPauses s l =
      {s with
        pause_time := s.pause_time + sumPauses l
        start_pause := lastPauseStart l s.start_pause} := by
  induction l with
  | nil => intro s; simp [applyPauses, sumPauses, lastPauseStart]
  | cons pr rest ih =>
    intro s
    have : applyPauses s (pr :: rest) =
        applyPauses (resumeTiming pr.2 (pauseTiming pr.1 s)) rest := rfl
    rw [this, ih]
    simp only [resumeTiming, pauseTiming, sumPauses, lastPauseStart, WorkerState.mk.injEq,
      and_true, true_and]
    ring

/-- Ordered balanced pauses inside a window sum to strictly less than the
window's width. -/
lemma sumPauses_lt : ∀ (l : List (ℚ × ℚ)) (t0 tEnd : ℚ),
    chainedIn t0 tEnd l → sumPauses l < tEnd - t0 := by
  intro l
  induction l with
  | nil =>
    intro t0 tEnd h
    simp only [chainedIn] at h
    simp only [sumPauses]
    linarith
  | cons pr rest ih =>
    intro t0 tEnd h
    simp only [chainedIn] at h
    obtain ⟨h1, h2, h3⟩ := h
    have hr := ih pr.2 tEnd h3
    simp only [sumPauses]
    linarith

/-! ### C9: counters and label are legal only in STOPPED -/

/-- C9: set_bytes_processed, set_items_processed and set_label hit a fatal
check in every worker state other than STOPPED; in STOPPED each call
succeeds and stores the given value. -/
theorem c9_confirmed (s : WorkerState) (stats : ThreadStats) (b i : ℤ) (lbl : String) :
    (s.phase ≠ Phase.stopped →
      setBytesProcessed s stats b = none ∧
      setItemsProcessed s stats i = none ∧
      setLabel s lbl = none) ∧
    (s.phase = Phase.stopped →
      setBytesProcessed s stats b = some {stats with bytes_processed := b} ∧
      setItemsProcessed s stats i = some {stats with items_processed := i} ∧
      setLabel s lbl = some {s with label := lbl}) := by
  constructor <;> intro h <;>
    simp [setBytesProcessed, setItemsProcessed, setLabel, h]

/-- A stopped worker, used to instantiate the theorems below. -/
def wStopped : WorkerState :=
  { thread_index := 0, phase := Phase.stopped, iterations := 5, start_cpu := 0,
    start_time := 0, stop_time_micros := 0, start_pause := 0, pause_time := 0,
    total_iterations := 5, interval_micros := 500000, is_continuation := false,
    runs := [], starting := 1, stopping := 1, threads := 1, label := "" }

/-- A worker still in RUNNING, used to instantiate the theorems below. -/
def wRunning : WorkerState :=
  { wStopped with phase := Phase.running, stopping := 0 }

/-- C9 witness: in STOPPED set_bytes_processed stores 7; in RUNNING
set_label hits the fatal check. -/
theorem c9_witness :
    setBytesProcessed wStopped ⟨0, 0⟩ 7 = some ⟨7, 0⟩ ∧
    setLabel wRunning "lbl" = none :=
  ⟨((c9_confirmed wStopped ⟨0, 0⟩ 7 0 "lbl").2 rfl).1,
   ((c9_confirmed wRunning ⟨0, 0⟩ 0 0 "lbl").1 (by decide)).2.2⟩

/-! ### C1: the run-another-interval decision -/

/-- C1: after a worker closes an interval and records its RunData, the
decision whether to run another interval (equivalently, whether it stays in
RUNNING) is: yes if its total iterations are < benchmark_min_iters;
otherwise no if they are > benchmark_max_iters; otherwise no if the number
of completed (non-continuation) runs recorded in the shared state is
≥ benchmark_repetitions; otherwise yes.  The recorded-run count is
runs.size(): a non-continuation close appends exactly one entry and a
continuation close overwrites in place, leaving the count unchanged. -/
theorem c1_confirmed (f : Flags) (e : Env) (s : WorkerState)
    (hph : s.phase = Phase.running)
    (hslow : truncQ (s.stop_time_micros + s.pause_time) ≤ e.approx)
    (hrec : ¬(s.iterations < f.benchmark_min_iters.tdiv f.benchmark_repetitions ∧
      s.interval_micros < 5000000))
    (hchk : s.pause_time < e.c1.wall - s.start_time)
    (hcne : s.is_continuation = true → s.runs ≠ []) :
    ∃ b s', keepRunning f e s = some (b, s') ∧
      (s.is_continuation = false → s'.runs.length = s.runs.length + 1) ∧
      (s.is_continuation = true → s'.runs.length = s.runs.length) ∧
      ((s'.phase = Phase.running) ↔
        specRunDecision f (s.total_iterations + s.iterations) ((s'.runs.length : ℤ)) = true) ∧
      (∀ total completed : ℤ,
        runAnotherInterval f total completed = specRunDecision f total completed) := by
  obtain ⟨b, s', hfin, hruns, htot, hiff⟩ := finishInterval_close f e s hph hrec hchk hcne
  refine ⟨b, s', ?_, ?_, ?_, ?_, fun _ _ => rfl⟩
  · rw [keepRunning_running f e s hph hslow]
    exact hfin
  · intro hc
    rw [hruns, hc]
    simp
  · intro hc
    have hpos : 0 < s.runs.length := List.length_pos.mpr (hcne hc)
    rw [hruns, hc]
    simp [List.length_dropLast]
    omega
  · rw [← runAnotherInterval_eq_spec]
    exact hiff

/-- C1 witness: a worker with 200 iterations (min_iters 100, repetitions 1)
closes its interval, records the run, and the decision comes out as the spec
says. -/
theorem c1_witness :
    ∃ b s', keepRunning fDefault eC1 sC1 = some (b, s') ∧
      (sC1.is_continuation = false → s'.runs.length = sC1.runs.length + 1) ∧
      (sC1.is_continuation = true → s'.runs.length = sC1.runs.length) ∧
      ((s'.phase = Phase.running) ↔
        specRunDecision fDefault (sC1.total_iterations + sC1.iterations)
          ((s'.runs.length : ℤ)) = true) ∧
      (∀ total completed : ℤ,
        runAnotherInterval fDefault total completed = specRunDecision fDefault total completed) :=
  c1_confirmed fDefault eC1 sC1 rfl (by norm_num [sC1, eC1, truncQ_zero])
    (by decide) (by norm_num [sC1, eC1]) (by simp [sC1])

/-! ### C2: the interval-too-short branch -/

/-- C2 counterexample: a worker in RUNNING reaches its deadline with 3
iterations (< min_iters / repetitions = 100) and a 1000 µs interval
(< 5 s), so the doubling branch fires — but contrary to the claim the new
interval is NOT flagged as a continuation (the flag is cleared), the
iteration and pause counters do NOT carry over (they reset to zero), and no
RunData entry exists to be overwritten (runs stays empty). -/
theorem c2_counterexample :
    keepRunning fDefault eC2 sC2 = some (true, sC2') ∧
    sC2.phase = Phase.running ∧
    sC2.iterations = 3 ∧
    sC2.iterations < fDefault.benchmark_min_iters.tdiv fDefault.benchmark_repetitions ∧
    sC2.interval_micros < 5000000 ∧
    sC2'.interval_micros = 2 * sC2.interval_micros ∧
    sC2'.is_continuation = false ∧
    sC2'.iterations = 0 ∧
    sC2'.pause_time = 0 ∧
    sC2'.runs = sC2.runs ∧ sC2.runs = [] := by
  have hslow : truncQ (sC2.stop_time_micros + sC2.pause_time) ≤ eC2.approx := by
    norm_num [sC2, sC1, eC2, truncQ_zero]
  refine ⟨?_, rfl, rfl, by decide, by decide, by decide, rfl, rfl, by norm_num [sC2', sC2, sC1],
    rfl, rfl⟩
  rw [keepRunning_running fDefault eC2 sC2 rfl hslow]
  simp only [finishInterval]
  rw [if_pos ⟨by decide, by decide⟩]
  norm_num [newInterval, sC2, sC2', sC1, eC2, WorkerState.mk.injEq]

/-- C2 as amended: when a worker in RUNNING reaches its deadline with an
iteration count below benchmark_min_iters / benchmark_repetitions and an
interval duration below 5 seconds, it doubles the interval duration and
restarts a fresh interval with the continuation flag cleared: the iteration
and pause counters reset to zero, the start times are resampled, and no
RunData entry is appended or overwritten. -/
theorem c2_amended (f : Flags) (e : Env) (s : WorkerState)
    (hph : s.phase = Phase.running)
    (hslow : truncQ (s.stop_time_micros + s.pause_time) ≤ e.approx)
    (hit : s.iterations < f.benchmark_min_iters.tdiv f.benchmark_repetitions)
    (hint : s.interval_micros < 5000000) :
    ∃ s', keepRunning f e s = some (true, s') ∧
      s'.interval_micros = s.interval_micros * 2 ∧
      s'.is_continuation = false ∧
      s'.iterations = 0 ∧
      s'.pause_time = 0 ∧
      s'.start_time = e.c2.wall ∧
      s'.start_cpu = e.c2.cpu ∧
      s'.stop_time_micros = ((e.c2.nowMicros + s.interval_micros * 2 : ℤ) : ℚ) ∧
      s'.runs = s.runs ∧
      s'.total_iterations = s.total_iterations ∧
      s'.phase = Phase.running := by
  rw [keepRunning_running f e s hph hslow]
  simp only [finishInterval]
  rw [if_pos ⟨hit, hint⟩]
  refine ⟨_, rfl, ?_, ?_, ?_, ?_, ?_, ?_, ?_, ?_, ?_, ?_⟩ <;>
    simp [newInterval, hph]

/-- C2 witness: the amended statement instantiated at the concrete
too-short interval. -/
theorem c2_witness :
    ∃ s', keepRunning fDefault eC2 sC2 = some (true, s') ∧
      s'.interval_micros = sC2.interval_micros * 2 ∧
      s'.is_continuation = false ∧
      s'.iterations = 0 ∧
      s'.pause_time = 0 ∧
      s'.start_time = eC2.c2.wall ∧
      s'.start_cpu = eC2.c2.cpu ∧
      s'.stop_time_micros = ((eC2.c2.nowMicros + sC2.interval_micros * 2 : ℤ) : ℚ) ∧
      s'.runs = sC2.runs ∧
      s'.total_iterations = sC2.total_iterations ∧
      s'.phase = Phase.running :=
  c2_amended fDefault eC2 sC2 rfl (by norm_num [sC2, sC1, eC2, truncQ_zero])
    (by decide) (by decide)

/-! ### C3: true returns of keep_running versus recorded iterations -/

/-- One closed non-continuation interval, traced call by call: an opening
slow-path call that returns true into the fresh interval, es fast-path
calls, and a closing call that records the RunData. -/
lemma closed_interval_trace (f : Flags) (e0 ec : Env) (es : List Env) (s s1 : WorkerState)
    (hopen : keepRunning f e0 s = some (true, s1))
    (hz : s1.iterations = 0)
    (hcont : s1.is_continuation = false)
    (hph : s1.phase = Phase.running)
    (hfast : ∀ e ∈ es, e.approx < truncQ (s1.stop_time_micros + s1.pause_time))
    (hcslow : truncQ (s1.stop_time_micros + s1.pause_time) ≤ ec.approx)
    (hcrec : ¬((es.length : ℤ) < f.benchmark_min_iters.tdiv f.benchmark_repetitions ∧
      s1.interval_micros < 5000000))
    (hcchk : s1.pause_time < ec.c1.wall - s1.start_time) :
    ∃ b s', runSteps f (e0 :: (es ++ [ec])) s =
        some (true :: (List.replicate es.length true ++ [b]), s') ∧
      ∃ d : RunData, s'.runs = s1.runs ++ [d] ∧
        d.iterations = (es.length : ℤ) ∧
        (true :: List.replicate es.length true).count true = es.length + 1 := by
  have hfastrun := runSteps_fast f es s1 hfast
  set s2 : WorkerState := {s1 with iterations := s1.iterations + (es.length : ℤ)} with hs2
  have hph2 : s2.phase = Phase.running := hph
  have hit2 : s2.iterations = (es.length : ℤ) := by
    rw [hs2]
    show s1.iterations + (es.length : ℤ) = (es.length : ℤ)
    rw [hz, zero_add]
  have hrec2 : ¬(s2.iterations < f.benchmark_min_iters.tdiv f.benchmark_repetitions ∧
      s2.interval_micros < 5000000) := by
    rw [hit2]
    exact hcrec
  have hchk2 : s2.pause_time < ec.c1.wall - s2.start_time := hcchk
  have hcne2 : s2.is_continuation = true → s2.runs ≠ [] := by
    intro h
    rw [show s2.is_continuation = s1.is_continuation from rfl, hcont] at h
    cases h
  obtain ⟨b, s', hfin, hruns, htot, hiff⟩ := finishInterval_close f ec s2 hph2 hrec2 hchk2 hcne2
  have hkr : keepRunning f ec s2 = finishInterval f ec s2 :=
    keepRunning_running f ec s2 hph2 hcslow
  refine ⟨b, s',
    ?_,
    ⟨s2.thread_index, s2.iterations,
      (ec.c1.wall - s2.start_time) - (s2.pause_time + 0), ec.c1.cpu - s2.start_cpu⟩,
    ?_, ?_, ?_⟩
  · simp only [runSteps, hopen]
    rw [runSteps_append, hfastrun]
    simp [runSteps, hkr, hfin]
  · have hni : ¬(s2.is_continuation = true) := by
      show ¬(s1.is_continuation = true)
      simp [hcont]
    rw [hruns, if_neg hni]
  · exact hit2
  · simp

/-- C3 as amended: for every closed non-continuation interval, the recorded
iteration count equals the number of fast-path true returns of keep_running
during the interval; the slow-path call that opens the interval also returns
true from inside the interval without being counted, so the total number of
true returns during the interval is the recorded iteration count plus one. -/
theorem c3_amended (f : Flags) (e0 ec : Env) (es : List Env) (s s1 : WorkerState)
    (hopen : keepRunning f e0 s = some (true, s1))
    (hz : s1.iterations = 0)
    (hcont : s1.is_continuation = false)
    (hph : s1.phase = Phase.running)
    (hfast : ∀ e ∈ es, e.approx < truncQ (s1.stop_time_micros + s1.pause_time))
    (hcslow : truncQ (s1.stop_time_micros + s1.pause_time) ≤ ec.approx)
    (hcrec : ¬((es.length : ℤ) < f.benchmark_min_iters.tdiv f.benchmark_repetitions ∧
      s1.interval_micros < 5000000))
    (hcchk : s1.pause_time < ec.c1.wall - s1.start_time) :
    ∃ b s', runSteps f (e0 :: (es ++ [ec])) s =
        some (true :: (List.replicate es.length true ++ [b]), s') ∧
      ∃ d : RunData, s'.runs = s1.runs ++ [d] ∧
        d.iterations = (es.length : ℤ) ∧
        (true :: List.replicate es.length true).count true = es.length + 1 :=
  closed_interval_trace f e0 ec es s s1 hopen hz hcont hph hfast hcslow hcrec hcchk

/-- The opening call of the concrete C3 trace: the doubling restart. -/
lemma keepRunning_eC30 : keepRunning fDefault eC30 sC3 = some (true, sC3mid) := by
  have hslow : truncQ (sC3.stop_time_micros + sC3.pause_time) ≤ eC30.approx := by
    norm_num [sC3, sC1, eC30, truncQ_zero]
  rw [keepRunning_running fDefault eC30 sC3 rfl hslow]
  simp only [finishInterval]
  rw [if_pos ⟨by decide, by decide⟩]
  norm_num [newInterval, sC3, sC3mid, sC1, eC30, WorkerState.mk.injEq]

/-- The single fast-path call of the concrete C3 trace is indeed fast. -/
lemma fastC31 : ∀ e ∈ [eC31],
    e.approx < truncQ (sC3mid.stop_time_micros + sC3mid.pause_time) := by
  intro e he
  simp only [List.mem_singleton] at he
  subst he
  norm_num [sC3mid, sC3, sC1, eC31, show truncQ (8000000 : ℚ) = 8000000 from rfl]

/-- The closing call of the concrete C3 trace is slow. -/
lemma slowC32 : truncQ (sC3mid.stop_time_micros + sC3mid.pause_time) ≤ eC32.approx := by
  norm_num [sC3mid, sC3, sC1, eC32, show truncQ (8000000 : ℚ) = 8000000 from rfl]

/-- The concrete C3 trace closes rather than doubling again. -/
lemma recC3 : ¬((([eC31].length : ℕ) : ℤ) <
      fDefault.benchmark_min_iters.tdiv fDefault.benchmark_repetitions ∧
    sC3mid.interval_micros < 5000000) := by decide

/-- The pause assertion holds on the concrete C3 trace. -/
lemma chkC3 : sC3mid.pause_time < eC32.c1.wall - sC3mid.start_time := by
  norm_num [sC3mid, sC3, sC1, eC32]

/-- C3 counterexample: a concrete three-call trace — a doubling restart that
opens a fresh non-continuation interval and returns true, one fast-path call
returning true, and the closing call.  keep_running returned true twice
during the closed interval, but the interval's recorded iteration count is
1, so the claimed equality fails (2 ≠ 1). -/
theorem c3_counterexample :
    ∃ b s', runSteps fDefault (eC30 :: ([eC31] ++ [eC32])) sC3 =
        some (true :: (List.replicate [eC31].length true ++ [b]), s') ∧
      ∃ d : RunData, s'.runs = sC3mid.runs ++ [d] ∧
        d.iterations = 1 ∧
        ((true :: List.replicate [eC31].length true).count true : ℤ) = 2 ∧
        (2 : ℤ) ≠ 1 := by
  obtain ⟨b, s', hrun, d, hruns, hd, _⟩ :=
    closed_interval_trace fDefault eC30 eC32 [eC31] sC3 sC3mid keepRunning_eC30
      rfl rfl rfl fastC31 slowC32 recC3 chkC3
  refine ⟨b, s', hrun, d, hruns, ?_, by decide, by decide⟩
  rw [hd]
  decide

/-- C3 witness: the amended statement instantiated on the concrete
three-call trace. -/
theorem c3_witness :
    ∃ b s', runSteps fDefault (eC30 :: ([eC31] ++ [eC32])) sC3 =
        some (true :: (List.replicate [eC31].length true ++ [b]), s') ∧
      ∃ d : RunData, s'.runs = sC3mid.runs ++ [d] ∧
        d.iterations = ([eC31].length : ℤ) ∧
        (true :: List.replicate [eC31].length true).count true = [eC31].length + 1 :=
  c3_amended fDefault eC30 eC32 [eC31] sC3 sC3mid keepRunning_eC30
    rfl rfl rfl fastC31 slowC32 recC3 chkC3

/-! ### C4: pause accounting and nonnegative real time -/

/-- C4: pause_timing records the pause start from the wall clock and
resume_timing adds the elapsed pause to pause_time, with multiple
pause/resume cycles accumulating (the worker's pause_time after the episodes
is their summed duration); for an interval closed with balanced, ordered
pauses inside its window, the assertion pause_time < wall-clock elapsed
holds at interval close (the fatal CHECK passes and the close succeeds), and
the recorded real_accumulated_time — wall-clock elapsed minus pause_time
minus the overhead compensation of zero — is positive, hence never
negative. -/
theorem c4_confirmed (f : Flags) (e : Env) (s0 : WorkerState) (l : List (ℚ × ℚ))
    (hph : s0.phase = Phase.running)
    (hp0 : s0.pause_time = 0)
    (hcont : s0.is_continuation = false)
    (hchain : chainedIn s0.start_time e.c1.wall l)
    (hslow : truncQ (s0.stop_time_micros + sumPauses l) ≤ e.approx)
    (hrec : ¬(s0.iterations < f.benchmark_min_iters.tdiv f.benchmark_repetitions ∧
      s0.interval_micros < 5000000)) :
    (applyPauses s0 l).pause_time = sumPauses l ∧
    (applyPauses s0 l).pause_time < e.c1.wall - s0.start_time ∧
    ∃ b s', keepRunning f e (applyPauses s0 l) = some (b, s') ∧
      ∃ d : RunData, s'.runs = s0.runs ++ [d] ∧
        d.real_accumulated_time = (e.c1.wall - s0.start_time) - (sumPauses l + 0) ∧
        0 < d.real_accumulated_time ∧ 0 ≤ d.real_accumulated_time := by
  have heq := applyPauses_eq l s0
  have hpl : (applyPauses s0 l).pause_time = sumPauses l := by
    rw [heq]
    show s0.pause_time + sumPauses l = sumPauses l
    rw [hp0, zero_add]
  have hlt : sumPauses l < e.c1.wall - s0.start_time := sumPauses_lt l _ _ hchain
  have hf_phase : (applyPauses s0 l).phase = s0.phase := by rw [heq]
  have hf_stop : (applyPauses s0 l).stop_time_micros = s0.stop_time_micros := by rw [heq]
  have hf_start : (applyPauses s0 l).start_time = s0.start_time := by rw [heq]
  have hf_iter : (applyPauses s0 l).iterations = s0.iterations := by rw [heq]
  have hf_int : (applyPauses s0 l).interval_micros = s0.interval_micros := by rw [heq]
  have hf_cont : (applyPauses s0 l).is_continuation = s0.is_continuation := by rw [heq]
  have hf_runs : (applyPauses s0 l).runs = s0.runs := by rw [heq]
  refine ⟨hpl, by rw [hpl]; exact hlt, ?_⟩
  have hchk1 : (applyPauses s0 l).pause_time <
      e.c1.wall - (applyPauses s0 l).start_time := by
    rw [hpl, hf_start]
    exact hlt
  obtain ⟨b, s', hfin, hruns, htot, hiff⟩ :=
    finishInterval_close f e (applyPauses s0 l)
      (by rw [hf_phase]; exact hph)
      (by rw [hf_iter, hf_int]; exact hrec)
      hchk1
      (by rw [hf_cont, hcont]; intro h; cases h)
  refine ⟨b, s', ?_,
    ⟨(applyPauses s0 l).thread_index, (applyPauses s0 l).iterations,
      (e.c1.wall - (applyPauses s0 l).start_time) - ((applyPauses s0 l).pause_time + 0),
      e.c1.cpu - (applyPauses s0 l).start_cpu⟩,
    ?_, ?_, ?_, ?_⟩
  · rw [keepRunning_running f e (applyPauses s0 l) (by rw [hf_phase]; exact hph)
      (by rw [hf_stop, hpl]; exact hslow)]
    exact hfin
  · rw [hruns, hf_cont, hcont, hf_runs]
    rfl
  · show (e.c1.wall - (applyPauses s0 l).start_time) - ((applyPauses s0 l).pause_time + 0) =
      (e.c1.wall - s0.start_time) - (sumPauses l + 0)
    rw [hf_start, hpl]
  · show 0 < (e.c1.wall - (applyPauses s0 l).start_time) - ((applyPauses s0 l).pause_time + 0)
    rw [hf_start, hpl]
    linarith
  · show 0 ≤ (e.c1.wall - (applyPauses s0 l).start_time) - ((applyPauses s0 l).pause_time + 0)
    rw [hf_start, hpl]
    linarith

/-- C4 witness: two pause episodes [1,2] and [4,6] inside an interval
closing at wall time 10 accumulate pause_time 3, the assertion holds, and
the recorded real time is 10 − 3 = 7 > 0. -/
theorem c4_witness :
    (applyPauses sC1 pausesC4).pause_time = sumPauses pausesC4 ∧
    (applyPauses sC1 pausesC4).pause_time < eC4.c1.wall - sC1.start_time ∧
    ∃ b s', keepRunning fDefault eC4 (applyPauses sC1 pausesC4) = some (b, s') ∧
      ∃ d : RunData, s'.runs = sC1.runs ++ [d] ∧
        d.real_accumulated_time = (eC4.c1.wall - sC1.start_time) - (sumPauses pausesC4 + 0) ∧
        0 < d.real_accumulated_time ∧ 0 ≤ d.real_accumulated_time :=
  c4_confirmed fDefault eC4 sC1 pausesC4 rfl rfl rfl
    (by norm_num [chainedIn, pausesC4, sC1, eC4])
    (by norm_num [sC1, eC4, pausesC4, sumPauses, truncQ_intCast,
      show truncQ (3 : ℚ) = 3 from rfl])
    (by decide)

/-! ### C5: the benchmark filter preprocessing -/

/-- C5 evidence: the "all" half of the claim holds ("all" is replaced by
"." before matching), but the empty half does not: RunSpecifiedBenchmarks
also replaces an EMPTY filter by ".", so with an empty filter the matching
runs against "." and a registered family is run — the early empty-spec
return inside RunMatchingBenchmarks is unreachable from this path.  This
contradicts the flag's own help text in the source ("If this flag is empty,
no benchmarks are run."). -/
theorem c5_bug :
    runSpecifiedBenchmarksSpec "" = "." ∧
    runSpecifiedBenchmarksSpec "all" = "." ∧
    (∀ (matcherOf : String → String → Bool) (fams : List (Option Family)) (numCpus : ℤ),
      runSpecifiedBenchmarks "" matcherOf fams numCpus =
        findBenchmarks (matcherOf ".") fams numCpus) ∧
    runSpecifiedBenchmarks "" (fun _ _ => true) [some famPlain] 1 ≠ [] := by
  refine ⟨rfl, rfl, fun m fams n => rfl, ?_⟩
  decide

/-! ### C7: instance names -/

/-- C7 as amended: for axis values (x, y) and a thread count T > 1 the
instance name is the family name followed by "/", the SI rendering of x,
"/", the SI rendering of y, and "/threads:" T; when the family set no
thread counts (so T defaults to 1) and no axes, the instance name is exactly
the family name.  (An explicitly set thread count of 1 still appends
"/threads:1" — see the counterexample.) -/
theorem c7_amended :
    (∀ (fam : Family) (numCpus x y : ℤ) (inst : Instance),
      inst ∈ createBenchmarkInstances fam numCpus (some x) (some y) →
      1 < inst.threads →
      inst.name = fam.name ++ "/" ++ siRender x ++ "/" ++ siRender y ++
        "/threads:" ++ toString inst.threads) ∧
    (∀ (fam : Family) (numCpus : ℤ), fam.thread_counts = [] →
      createBenchmarkInstances fam numCpus none none =
        [⟨fam.name, false, kNoRange, false, kNoRange, 1⟩]) := by
  constructor
  · intro fam numCpus x y inst hmem ht
    by_cases hmt : fam.thread_counts = []
    · simp [createBenchmarkInstances, hmt, kNumCpuMarker] at hmem
      rw [hmem] at ht
      simp at ht
    · simp only [createBenchmarkInstances, hmt, ne_eq, not_false_iff, if_true,
        ite_not, List.mem_map] at hmem
      obtain ⟨t, htmem, heq⟩ := hmem
      rw [← heq]
      simp [appendHumanReadable, hmt]
  · intro fam numCpus h
    simp [createBenchmarkInstances, h, kNumCpuMarker, kNoRange]

/-- The single instance produced for family famT4 with axes 16 and 32. -/
def instC7 : Instance :=
  ⟨"BM" ++ "/" ++ siRender 16 ++ "/" ++ siRender 32 ++ "/threads:" ++ toString (4 : ℤ),
    true, 16, true, 32, 4⟩

/-- C7 witness: the amended statement instantiated on a family with
Threads(4) and axes (16, 32), and on a plain family. -/
theorem c7_witness :
    instC7.name = famT4.name ++ "/" ++ siRender 16 ++ "/" ++ siRender 32 ++
      "/threads:" ++ toString instC7.threads ∧
    createBenchmarkInstances famPlain 7 none none =
      [⟨famPlain.name, false, kNoRange, false, kNoRange, 1⟩] :=
  ⟨c7_amended.1 famT4 7 16 32 instC7
      (by rw [show createBenchmarkInstances famT4 7 (some 16) (some 32) = [instC7] from rfl]
          exact List.mem_singleton.mpr rfl)
      (by decide),
    c7_amended.2 famPlain 7 rfl⟩

/-- C7 counterexample: a family registered with Threads(1) produces an
instance with thread count 1 and no axes whose name is "BM/threads:1", not
the family name "BM" — refuting the claim's second half as stated. -/
theorem c7_counterexample :
    createBenchmarkInstances famThreads1 7 none none =
      [⟨"BM" ++ "/threads:" ++ toString (1 : ℤ), false, kNoRange, false, kNoRange, 1⟩] ∧
    ("BM" ++ "/threads:" ++ toString (1 : ℤ)) = "BM/threads:1" ∧
    ("BM/threads:1" : String) ≠ "BM" ∧
    famThreads1.name = "BM" := by
  refine ⟨rfl, by decide, by decide, rfl⟩

/-! ### C8: SI number formatting -/

/-- C8 counterexample: with threshold 1.1, precision 1 and base 1024 the
value 1024·1024 is rendered "1024k" (the mantissa 1024·1024/1024 = 1024 is
already at or below the adjusted threshold 1.1·1024, and the stream prints
it with no decimal-place formatting), not "1.0k" as claimed. -/
theorem c8_counterexample :
    humanReadableNumber (1024 * 1024) = "1024k" ∧ ("1024k" : String) ≠ "1.0k" := by
  constructor
  · norm_num [humanReadableNumber, toBinaryStringFullySpecified, toExponentAndMantissa,
      posLoop, kUnitsSize, showDouble, unitForExponent, bigSIUnits]
    decide
  · decide

/-- C8 as amended: SI number formatting with threshold 1.1, precision 1 and
base 1024 renders the value 1024·1024 as the string "1024k" and renders the
value 1023 as the string "1023". -/
theorem c8_amended :
    humanReadableNumber (1024 * 1024) = "1024k" ∧ humanReadableNumber 1023 = "1023" := by
  constructor
  · norm_num [humanReadableNumber, toBinaryStringFullySpecified, toExponentAndMantissa,
      posLoop, kUnitsSize, showDouble, unitForExponent, bigSIUnits]
    decide
  · norm_num [humanReadableNumber, toBinaryStringFullySpecified, toExponentAndMantissa,
      posLoop, negLoop, kUnitsSize, showDouble, unitForExponent, bigSIUnits]
    decide

/-! ### C10: FindMatchingBenchmarkNames writes through begin() -/

lemma writeSeq_oob : ∀ (xs : List String) (dst : List String) (i : ℕ),
    i ≤ dst.length → dst.length < i + xs.length → writeSeq dst i xs = none := by
  intro xs
  induction xs with
  | nil =>
    intro dst i hle hlt
    exfalso
    simp at hlt
    omega
  | cons x rest ih =>
    intro dst i hle hlt
    simp only [writeSeq]
    by_cases h : i < dst.length
    · rw [if_pos h]
      refine ih _ _ ?_ ?_
      · simp
        omega
      · simp at hlt ⊢
        omega
    · rw [if_neg h]

lemma writeSeq_ok : ∀ (xs : List String) (dst : List String) (i : ℕ),
    i + xs.length ≤ dst.length →
    ∃ l, writeSeq dst i xs = some l ∧ l.length = dst.length ∧
      (∀ j, j < xs.length → l[i + j]? = xs[j]?) ∧
      (∀ j, j < i ∨ i + xs.length ≤ j → l[j]? = dst[j]?) := by
  intro xs
  induction xs with
  | nil =>
    intro dst i _
    exact ⟨dst, rfl, rfl, fun j hj => absurd hj (by simp), fun j _ => rfl⟩
  | cons x rest ih =>
    intro dst i h
    have hlen : i + (rest.length + 1) ≤ dst.length := by simpa using h
    have hi : i < dst.length := by omega
    obtain ⟨l, hw, hlen', hin, hout⟩ := ih (dst.set i x) (i + 1) (by simp; omega)
    refine ⟨l, ?_, by simpa using hlen', ?_, ?_⟩
    · simp only [writeSeq, if_pos hi]
      exact hw
    · intro j hj
      cases j with
      | zero =>
        have hli : l[i]? = (dst.set i x)[i]? := hout i (Or.inl (by omega))
        rw [show i + 0 = i from rfl, hli]
        simp [List.getElem?_set, hi]
      | succ j =>
        have hj' : j < rest.length := by simpa using hj
        rw [show i + (j + 1) = (i + 1) + j by omega, hin j hj']
        simp
    · intro j hj
      have h1 : j < i + 1 ∨ i + 1 + rest.length ≤ j := by
        rcases hj with h' | h'
        · exact Or.inl (by omega)
        · right
          simp at h'
          omega
      have hne : j ≠ i := by
        rcases hj with h' | h'
        · omega
        · simp at h'
          omega
      rw [hout j h1]
      simp [List.getElem?_set, hne.symm]

/-- C10: FindMatchingBenchmarkNames writes the i-th matching instance name
to position i of the caller-supplied vector through an output iterator at
its beginning, never growing the vector (positions past the matches keep
their old contents); whenever the number of matching instances exceeds the
vector's current size, the write runs out of bounds (the
index-out-of-range branch of the embedding is reached). -/
theorem c10_confirmed (spec : String) (matcher : String → Bool)
    (fams : List (Option Family)) (numCpus : ℤ) (benchmark_names : List String)
    (hs : spec ≠ "") :
    (benchmark_names.length < ((findBenchmarks matcher fams numCpus).map (·.name)).length →
      findMatchingBenchmarkNames spec matcher fams numCpus benchmark_names = none) ∧
    (((findBenchmarks matcher fams numCpus).map (·.name)).length ≤ benchmark_names.length →
      ∃ l, findMatchingBenchmarkNames spec matcher fams numCpus benchmark_names = some l ∧
        l.length = benchmark_names.length ∧
        (∀ j, j < ((findBenchmarks matcher fams numCpus).map (·.name)).length →
          l[j]? = ((findBenchmarks matcher fams numCpus).map (·.name))[j]?) ∧
        (∀ j, ((findBenchmarks matcher fams numCpus).map (·.name)).length ≤ j →
          l[j]? = benchmark_names[j]?)) := by
  constructor
  · intro hlt
    unfold findMatchingBenchmarkNames
    rw [if_neg hs]
    exact writeSeq_oob _ _ _ (by omega) (by omega)
  · intro hle
    obtain ⟨l, hw, hlen, hin, hout⟩ :=
      writeSeq_ok ((findBenchmarks matcher fams numCpus).map (·.name)) benchmark_names 0
        (by omega)
    refine ⟨l, ?_, hlen, ?_, ?_⟩
    · unfold findMatchingBenchmarkNames
      rw [if_neg hs]
      exact hw
    · intro j hj
      have := hin j hj
      simpa using this
    · intro j hj
      exact hout j (Or.inr (by omega))

/-- C10 witness: with one matching family and an empty vector the write is
out of bounds; with a two-slot vector the first slot receives the matching
name "BM" and the second keeps its old contents. -/
theorem c10_witness :
    findMatchingBenchmarkNames "." (fun _ => true) [some famPlain] 1 [] = none ∧
    ∃ l, findMatchingBenchmarkNames "." (fun _ => true) [some famPlain] 1 ["a", "b"] =
        some l ∧
      l.length = 2 ∧ l[0]? = some "BM" ∧ l[1]? = some "b" := by
  have h1 := (c10_confirmed "." (fun _ => true) [some famPlain] 1 [] (by decide)).1 (by decide)
  have h2 :=
    (c10_confirmed "." (fun _ => true) [some famPlain] 1 ["a", "b"] (by decide)).2 (by decide)
  obtain ⟨l, hw, hlen, hin, hout⟩ := h2
  refine ⟨h1, l, hw, by simpa using hlen, ?_, ?_⟩
  · have := hin 0 (by decide)
    rw [this]
    decide
  · have := hout 1 (by decide)
    rw [this]
    decide

/-! ### C6: geometric range expansion -/

/-- Membership in the AddRange loop output: starting the loop at the power
k^j (with enough fuel to outlast the overflow guard), the elements are
exactly the powers k^j' (j' ≥ j) strictly between lo and hi that also stay
under the overflow guard INT32_MAX / k. -/
lemma mem_addRangeLoop (lo hi k : ℤ) (hk : 2 ≤ k) :
    ∀ (fuel j : ℕ) (x : ℤ),
      int32Max.tdiv k ≤ k ^ j * 2 ^ fuel →
      (x ∈ addRangeLoop lo hi k fuel (k ^ j) ↔
        ∃ j' : ℕ, j ≤ j' ∧ x = k ^ j' ∧ lo < x ∧ x < hi ∧ x < int32Max.tdiv k) := by
  intro fuel
  induction fuel with
  | zero =>
    intro j x hbound
    simp only [addRangeLoop, List.not_mem_nil, false_iff]
    rintro ⟨j', hj', rfl, hlo, hhi, hL⟩
    have h1 : k ^ j ≤ k ^ j' := pow_le_pow_right₀ (by omega) hj'
    have h2 : int32Max.tdiv k ≤ k ^ j := by simpa using hbound
    omega
  | succ fuel ih =>
    intro j x hbound
    simp only [addRangeLoop]
    by_cases hguard : k ^ j < int32Max.tdiv k
    · rw [if_pos hguard]
      by_cases hbreak : hi ≤ k ^ j
      · rw [if_pos hbreak]
        simp only [List.not_mem_nil, false_iff]
        rintro ⟨j', hj', rfl, hlo, hhi, hL⟩
        have h1 : k ^ j ≤ k ^ j' := pow_le_pow_right₀ (by omega) hj'
        omega
      · rw [if_neg hbreak]
        have harg : k ^ j * k = k ^ (j + 1) := by ring
        rw [harg]
        have hbound' : int32Max.tdiv k ≤ k ^ (j + 1) * 2 ^ fuel := by
          have hkj : (0:ℤ) < k ^ j := pow_pos (by omega) j
          have h2f : (0:ℤ) < 2 ^ fuel := pow_pos (by omega) fuel
          have base : (0:ℤ) < k ^ j * 2 ^ fuel := mul_pos hkj h2f
          have hstep : k ^ j * 2 ^ (fuel + 1) ≤ k ^ (j + 1) * 2 ^ fuel := by
            have h2k := mul_le_mul_of_nonneg_left (show (2:ℤ) ≤ k by omega) (le_of_lt base)
            calc k ^ j * 2 ^ (fuel + 1) = (k ^ j * 2 ^ fuel) * 2 := by ring
              _ ≤ (k ^ j * 2 ^ fuel) * k := by linarith
              _ = k ^ (j + 1) * 2 ^ fuel := by ring
          omega
        have hrec := ih (j + 1) x hbound'
        constructor
        · intro hx
          rcases List.mem_append.mp hx with hx | hx
          · by_cases hlo : lo < k ^ j
            · rw [if_pos hlo] at hx
              simp only [List.mem_singleton] at hx
              subst hx
              exact ⟨j, le_refl j, rfl, hlo, lt_of_not_le hbreak, hguard⟩
            · rw [if_neg hlo] at hx
              simp at hx
          · obtain ⟨j', hj', rest⟩ := hrec.mp hx
            exact ⟨j', by omega, rest⟩
        · rintro ⟨j', hj', rfl, hlo, hhi, hL⟩
          rcases eq_or_lt_of_le hj' with heq | hlt
          · subst heq
            refine List.mem_append.mpr (Or.inl ?_)
            rw [if_pos hlo]
            simp
          · refine List.mem_append.mpr (Or.inr ?_)
            exact hrec.mpr ⟨j', by omega, rfl, hlo, hhi, hL⟩
    · rw [if_neg hguard]
      simp only [List.not_mem_nil, false_iff]
      rintro ⟨j', hj', rfl, hlo, hhi, hL⟩
      have h1 : k ^ j ≤ k ^ j' := pow_le_pow_right₀ (by omega) hj'
      omega

/-- The AddRange loop output is strictly ascending and bounded: every
element is at least the current i, above lo and below hi. -/
lemma addRangeLoop_sorted (lo hi k : ℤ) (hk : 2 ≤ k) :
    ∀ (fuel : ℕ) (i : ℤ), 1 ≤ i →
      List.Sorted (· < ·) (addRangeLoop lo hi k fuel i) ∧
      ∀ x ∈ addRangeLoop lo hi k fuel i, i ≤ x ∧ lo < x ∧ x < hi := by
  intro fuel
  induction fuel with
  | zero =>
    intro i hi1
    simp [addRangeLoop]
  | succ fuel ih =>
    intro i hi1
    simp only [addRangeLoop]
    by_cases hguard : i < int32Max.tdiv k
    · rw [if_pos hguard]
      by_cases hbreak : hi ≤ i
      · rw [if_pos hbreak]
        simp
      · rw [if_neg hbreak]
        have hik : 1 ≤ i * k := by nlinarith
        have hii : i < i * k := by nlinarith
        obtain ⟨hsorted, hbounds⟩ := ih (i * k) hik
        constructor
        · by_cases hlo : lo < i
          · rw [if_pos hlo]
            simp only [List.singleton_append, List.sorted_cons]
            exact ⟨fun b hb => lt_of_lt_of_le hii (hbounds b hb).1, hsorted⟩
          · rw [if_neg hlo]
            simpa using hsorted
        · intro x hx
          rcases List.mem_append.mp hx with hx | hx
          · by_cases hlo : lo < i
            · rw [if_pos hlo] at hx
              simp only [List.mem_singleton] at hx
              subst hx
              exact ⟨le_refl _, hlo, lt_of_not_le hbreak⟩
            · rw [if_neg hlo] at hx
              simp at hx
          · obtain ⟨h1, h2, h3⟩ := hbounds x hx
            exact ⟨le_trans (le_of_lt hii) h1, h2, h3⟩
    · rw [if_neg hguard]
      simp

/-- C6 counterexample: for lo = 0, hi = INT32_MAX and multiplier 8 the
power 8^10 = 1073741824 satisfies lo < 8^10 < hi, so the claimed set
contains it, but AddRange's output does not: the overflow guard
i < INT32_MAX / 8 stops the loop after 8^9.  (The CHECKs pass: 0 ≤ lo ≤ hi.) -/
theorem c6_counterexample :
    addRange 0 2147483647 8 =
      some [0, 1, 8, 64, 512, 4096, 32768, 262144, 2097152, 16777216, 134217728,
        2147483647] ∧
    (1073741824 : ℤ) = 8 ^ 10 ∧
    (0 : ℤ) < 1073741824 ∧ (1073741824 : ℤ) < 2147483647 ∧
    (1073741824 : ℤ) ∉
      [0, 1, 8, 64, 512, 4096, 32768, 262144, 2097152, 16777216, 134217728,
        2147483647] := by
  decide

/-- C6 as amended: for every 0 ≤ lo ≤ hi and multiplier k ≥ 2, geometric
range expansion produces exactly the set consisting of lo, every power k^i
with lo < k^i < hi that also stays below the overflow guard INT32_MAX / k
(truncating division), and hi when hi differs from lo, in strictly
ascending order. -/
theorem c6_amended (lo hi k : ℤ) (h0 : 0 ≤ lo) (hlh : lo ≤ hi) (hk : 2 ≤ k) :
    ∃ l, addRange lo hi k = some l ∧
      (∀ x : ℤ, x ∈ l ↔ (x = lo ∨
        (∃ j : ℕ, x = k ^ j ∧ lo < x ∧ x < hi ∧ x < int32Max.tdiv k) ∨
        (x = hi ∧ hi ≠ lo))) ∧
      List.Sorted (· < ·) l := by
  have hL : int32Max.tdiv k ≤ int32Max := by
    rw [Int.tdiv_eq_ediv (by decide) (by omega)]
    exact Int.ediv_le_self k (by decide)
  have hbound : int32Max.tdiv k ≤ k ^ 0 * 2 ^ 64 := by
    have h64 : (int32Max : ℤ) ≤ k ^ 0 * 2 ^ 64 := by norm_num [int32Max]
    omega
  refine ⟨lo :: (addRangeLoop lo hi k 64 1 ++ (if hi ≠ lo then [hi] else [])), ?_, ?_, ?_⟩
  · unfold addRange
    rw [if_pos ⟨h0, hlh⟩]
  · intro x
    have hmem := mem_addRangeLoop lo hi k hk 64 0 x hbound
    rw [pow_zero] at hmem
    simp only [List.mem_cons, List.mem_append]
    constructor
    · rintro (rfl | hx | hx)
      · exact Or.inl rfl
      · right
        left
        obtain ⟨j', _, rest⟩ := hmem.mp hx
        exact ⟨j', rest⟩
      · by_cases hne : hi ≠ lo
        · rw [if_pos hne] at hx
          simp only [List.mem_singleton] at hx
          subst hx
          exact Or.inr (Or.inr ⟨rfl, hne⟩)
        · rw [if_neg hne] at hx
          simp at hx
    · rintro (rfl | ⟨j, hj⟩ | ⟨rfl, hne⟩)
      · exact Or.inl rfl
      · right
        left
        exact hmem.mpr ⟨j, Nat.zero_le j, hj⟩
      · right
        right
        rw [if_pos hne]
        simp
  · obtain ⟨hsorted, hbounds⟩ := addRangeLoop_sorted lo hi k hk 64 1 (by norm_num)
    rw [List.sorted_cons]
    constructor
    · intro b hb
      rcases List.mem_append.mp hb with hb | hb
      · exact (hbounds b hb).2.1
      · by_cases hne : hi ≠ lo
        · rw [if_pos hne] at hb
          simp only [List.mem_singleton] at hb
          subst hb
          omega
        · rw [if_neg hne] at hb
          simp at hb
    · rw [show (List.Sorted (· < ·)
          (addRangeLoop lo hi k 64 1 ++ if hi ≠ lo then [hi] else [])) ↔ _
          from List.pairwise_append]
      refine ⟨hsorted, ?_, ?_⟩
      · by_cases hne : hi ≠ lo
        · rw [if_pos hne]
          simp
        · rw [if_neg hne]
          simp
      · intro a ha b hb
        by_cases hne : hi ≠ lo
        · rw [if_pos hne] at hb
          simp only [List.mem_singleton] at hb
          subst hb
          exact (hbounds a ha).2.2
        · rw [if_neg hne] at hb
          simp at hb

/-- C6 witness: the amended statement instantiated at lo = 0, hi = 5,
multiplier 8, whose expansion is [0, 1, 5]. -/
theorem c6_witness :
    ∃ l, addRange 0 5 8 = some l ∧
      (∀ x : ℤ, x ∈ l ↔ (x = 0 ∨
        (∃ j : ℕ, x = 8 ^ j ∧ 0 < x ∧ x < 5 ∧ x < int32Max.tdiv 8) ∨
        (x = 5 ∧ (5 : ℤ) ≠ 0))) ∧
      List.Sorted (· < ·) l :=
  c6_amended 0 5 8 (by norm_num) (by norm_num) (by norm_num)
